import Mathlib

/-!
Verification development for the `agile` package of go-atlassian
(`jira/agile/agile.go`): a shallow embedding of the request/response
transformation core, and proofs of the specified properties.

Modelling conventions:
* Go byte slices and strings are `List Char`.
* Go's `(value, err)` returns become `Except`/`Option` pairs.
* `encoding/json` is modelled by a JSON value type `JVal`, a renderer
  (`renderJ`, modelling `json.Marshal` on values whose strings need no
  escaping: no quote, backslash, control, `<`, `>`, `&`, U+2028/9 chars,
  and whose numbers are integers), and a fuel-based parser (`parseVal`,
  modelling `json.Unmarshal`: decoding fails exactly on malformed input).
* `net/url` parsing and reference resolution are modelled for the forms
  the client uses: absolute `scheme://host/path` base URLs and relative
  path references, with RFC 3986 merge and remove-dot-segments.
-/

/-! ## JSON values (model of the `encoding/json` fragment used) -/

inductive JVal where
  | jnull : JVal
  | jbool (b : Bool) : JVal
  | jnum (n : Int) : JVal
  | jstr (s : List Char) : JVal
  | jarr (elems : List JVal) : JVal
  | jobj (fields : List ((List Char) × JVal)) : JVal

/-- The decimal digit character for `d < 10`. -/
def digitChar (d : Nat) : Char :=
  Char.ofNat (48 + d)

/-- Numeric value of a decimal digit character. -/
def digitVal (c : Char) : Nat :=
  c.toNat - 48

/-- Decimal rendering of a natural number, most significant digit first
(the output format of Go's `strconv.AppendInt` for non-negative input). -/
def renderNat (n : Nat) : List Char :=
  if n = 0 then [ '0'] else ((Nat.digits 10 n).map digitChar).reverse

/-- Decimal rendering of an integer, with a leading minus sign when
negative (Go's `strconv.AppendInt`). -/
def renderInt (n : Int) : List Char :=
  if n < 0 then '-' :: renderNat n.natAbs else renderNat n.natAbs

mutual

/-- JSON rendering of a value: the bytes `json.Marshal` produces on the
modelled fragment (Go emits no whitespace either). -/
def renderJ : JVal → List Char
  | .jnull => [ 'n', 'u', 'l', 'l']
  | .jbool true => [ 't', 'r', 'u', 'e']
  | .jbool false => [ 'f', 'a', 'l', 's', 'e']
  | .jnum n => renderInt n
  | .jstr s => '\"' :: (s ++ [ '\"'])
  | .jarr [] => [ '[', ']']
  | .jarr (v :: l) => '[' :: (renderElems v l ++ [ ']'])
  | .jobj [] => [ '\x7b', '\x7d']
  | .jobj ((k, v) :: l) => '\x7b' :: (renderFields k v l ++ [ '\x7d'])
termination_by v => sizeOf v

/-- Comma-separated rendering of a non-empty array's elements. -/
def renderElems (v : JVal) (l : List JVal) : List Char :=
  match l with
  | [] => renderJ v
  | w :: l' => renderJ v ++ ',' :: renderElems w l'
termination_by sizeOf v + sizeOf l

/-- Comma-separated rendering of a non-empty object's members, each one a
`"key":value` pair. -/
def renderFields (k : List Char) (v : JVal) (l : List ((List Char) × JVal)) : List Char :=
  match l with
  | [] => '\"' :: (k ++ '\"' :: ':' :: renderJ v)
  | (k2, v2) :: l' => ('\"' :: (k ++ '\"' :: ':' :: renderJ v)) ++ ',' :: renderFields k2 v2 l'
termination_by sizeOf v + sizeOf l

end

/-- Characters that `json.Marshal` passes through unescaped: printable,
not quote or backslash, not one of the HTML-escaped characters. The
renderer above is only faithful to Go on strings of such characters. -/
def wfChar (c : Char) : Bool :=
  32 ≤ c.toNat && c ≠ '\"' && c ≠ '\\' && c ≠ '<' && c ≠ '>' && c ≠ '&' &&
    c.toNat ≠ 8232 && c.toNat ≠ 8233

mutual

/-- A JSON value all of whose strings are escape-free (see `wfChar`). -/
def wfJ : JVal → Bool
  | .jnull => true
  | .jbool _ => true
  | .jnum _ => true
  | .jstr s => s.all wfChar
  | .jarr l => wfArr l
  | .jobj l => wfObj l
termination_by v => sizeOf v

/-- All array elements well-formed. -/
def wfArr : List JVal → Bool
  | [] => true
  | v :: l => wfJ v && wfArr l
termination_by l => sizeOf l

/-- All object keys escape-free and values well-formed. -/
def wfObj : List ((List Char) × JVal) → Bool
  | [] => true
  | (k, v) :: l => k.all wfChar && wfJ v && wfObj l
termination_by l => sizeOf l

end

/-- String-body scanner: consumes up to the closing quote, returning the
content and the remainder (no escape sequences in the modelled fragment). -/
def parseString : List Char → Option (List Char × List Char)
  | [] => none
  | c :: rest =>
    if c = '\"' then some ([], rest)
    else (parseString rest).map fun p => (c :: p.1, p.2)

/-- Longest leading run of decimal digits, with the remainder. -/
def takeDigits : List Char → List Char × List Char
  | [] => ([], [])
  | c :: rest =>
    if c.isDigit then
      let p := takeDigits rest
      (c :: p.1, p.2)
    else ([], c :: rest)

/-- Numeric value of a digit run, most significant digit first. -/
def digitsVal (l : List Char) : Nat :=
  l.foldl (fun a c => a * 10 + digitVal c) 0

mutual

/-- Fuel-based JSON parser for the modelled grammar fragment (no
whitespace, integer numbers, escape-free strings): the decoder side of
`json.Unmarshal`, which fails exactly on malformed input. -/
def parseVal : Nat → List Char → Option (JVal × List Char)
  | 0, _ => none
  | _ + 1, 'n' :: 'u' :: 'l' :: 'l' :: rest => some (.jnull, rest)
  | _ + 1, 't' :: 'r' :: 'u' :: 'e' :: rest => some (.jbool true, rest)
  | _ + 1, 'f' :: 'a' :: 'l' :: 's' :: 'e' :: rest => some (.jbool false, rest)
  | _ + 1, '\"' :: rest => (parseString rest).map fun p => (.jstr p.1, p.2)
  | fuel + 1, '[' :: rest =>
    (if rest.head? = some ']' then some (.jarr [], rest.tail)
     else (parseElems fuel rest).map fun p => (.jarr p.1, p.2))
  | fuel + 1, '\x7b' :: rest =>
    (if rest.head? = some '\x7d' then some (.jobj [], rest.tail)
     else (parseFields fuel rest).map fun p => (.jobj p.1, p.2))
  | _ + 1, '-' :: rest =>
    (let p := takeDigits rest
     if p.1 = [] then none else some (.jnum (-(digitsVal p.1 : Int)), p.2))
  | _ + 1, c :: rest =>
    (if c.isDigit then
       let p := takeDigits (c :: rest)
       some (.jnum ((digitsVal p.1 : Nat) : Int), p.2)
     else none)
  | _ + 1, [] => none

/-- Elements of a non-empty array body, up to and past the closing `]`. -/
def parseElems : Nat → List Char → Option (List JVal × List Char)
  | 0, _ => none
  | fuel + 1, s =>
    (parseVal fuel s).bind fun p =>
      match p.2 with
      | ',' :: r => (parseElems fuel r).map fun q => (p.1 :: q.1, q.2)
      | ']' :: r => some ([p.1], r)
      | _ => none

/-- Members of a non-empty object body, up to and past the closing brace. -/
def parseFields : Nat → List Char → Option (List ((List Char) × JVal) × List Char)
  | 0, _ => none
  | fuel + 1, s =>
    match s with
    | '\"' :: rest =>
      (parseString rest).bind fun k =>
        match k.2 with
        | ':' :: r2 =>
          (parseVal fuel r2).bind fun p =>
            match p.2 with
            | ',' :: r4 => (parseFields fuel r4).map fun q => ((k.1, p.1) :: q.1, q.2)
            | '\x7d' :: r4 => some ([(k.1, p.1)], r4)
            | _ => none
        | _ => none
    | _ => none

end

/-- Complete JSON decoding of a byte string: parse with sufficient fuel
and require the whole input to be consumed, as `json.Unmarshal` does. -/
def jparseFull (s : List Char) : Option JVal :=
  match parseVal (s.length + 1) s with
  | some (v, []) => some v
  | _ => none

/-! ## The agile client: data model -/

/-- Shorthand for string literals as character lists. -/
def str (s : String) : List Char :=
  s.data

/-- The distinct `error` values the agile client core produces. -/
inductive AgileError where
  | nilResponse : AgileError
  | requestFailed (code : Int) : AgileError
  | bodyRead (msg : List Char) : AgileError
  | decodeFailed : AgileError
  | structureNotParsed : AgileError
  | marshalFailed (msg : List Char) : AgileError
deriving Repr, DecidableEq

/-- The parts of `http.Request` the transformer reads: `URL.String()`
and `Method`. -/
structure HTTPRequestInfo where
  URL : List Char
  Method : List Char
deriving Repr, DecidableEq

/-- The parts of `http.Response` the transformer reads. `Body` is the
outcome of draining the stream with `ioutil.ReadAll`: either the bytes
or a read error. -/
structure HTTPResponse where
  StatusCode : Int
  Request : HTTPRequestInfo
  Body : Except (List Char) (List Char)

/-- `models.ResponseScheme`. Modelled from the spec: the struct is
declared in `pkg/infra/models`, which is not under `src/`; its fields
follow the spec's data model `{statusCode, endpoint, method, rawBytes,
headers}` and the field names `agile.go` uses (`Code`, `Endpoint`,
`Method`, `Bytes`). The zero value of `Bytes` (a `bytes.Buffer`) is
empty. -/
structure ModelsResponseScheme where
  Code : Int
  Endpoint : List Char
  Method : List Char
  Bytes : List Char
  Headers : List ((List Char) × List (List Char))
deriving Repr, DecidableEq

/-- The package-local `ResponseScheme` struct declared at the bottom of
`agile.go`. -/
structure ResponseScheme where
  Code : Int
  Endpoint : List Char
  Method : List Char
  Bytes : List Char
  Headers : List ((List Char) × List (List Char))
deriving Repr, DecidableEq

/-- An `*http.Client`: either the substituted `http.DefaultClient` or a
caller-supplied one (identified abstractly; the transformer never reads
it). -/
inductive HTTPClient where
  | defaultClient : HTTPClient
  | custom (id : Nat) : HTTPClient
deriving Repr, DecidableEq

/-- A parsed `url.URL` of the shape the client is constructed with:
`scheme://host/path` (no query, fragment or userinfo). -/
structure URLModel where
  scheme : List Char
  host : List Char
  path : List Char
deriving Repr, DecidableEq

/-- The `Client` fields the request/response core reads. The sub-service
handles (`Auth`, `Sprint`, `Board`, `Epic`, ...) hold no logic of their
own and are omitted. -/
structure Client where
  HTTP : HTTPClient
  Site : URLModel
deriving Repr, DecidableEq

/-- The argument `structure interface{}` of `transformStructToReader`:
nil interface, non-nil interface holding a nil pointer, a value
`json.Marshal` rejects, or a marshalable value. -/
inductive StructInput where
  | nilInterface : StructInput
  | nilPointer : StructInput
  | unserializable (msg : List Char) : StructInput
  | value (v : JVal) : StructInput

/-! ## The transform functions (from `agile.go`) -/

/-- `(*Client).transformTheHTTPResponse`. `structureSupplied` models
whether the `structure interface{}` argument is non-nil; decoding into
it is `json.Unmarshal`, modelled by `jparseFull` (fails exactly on
malformed JSON). Mirrors the source line by line: nil check; envelope
populated with code/endpoint/method; status-class check; `ReadAll`;
optional decode; only then `Bytes.Write`. -/
def Client.transformTheHTTPResponse (c : Client) (response : Option HTTPResponse)
    (structureSupplied : Bool) : Option ModelsResponseScheme × Option AgileError :=
  match response with
  | none => (none, some .nilResponse)
  | some response =>
    let responseTransformed : ModelsResponseScheme :=
      { Code := response.StatusCode
        Endpoint := response.Request.URL
        Method := response.Request.Method
        Bytes := []
        Headers := [] }
    if 200 ≤ response.StatusCode ∧ response.StatusCode < 300 then
      match response.Body with
      | .error msg => (some responseTransformed, some (.bodyRead msg))
      | .ok responseAsBytes =>
        if structureSupplied ∧ (jparseFull responseAsBytes).isNone then
          (some responseTransformed, some .decodeFailed)
        else
          (some { responseTransformed with Bytes := responseAsBytes }, none)
    else
      (some responseTransformed, some (.requestFailed response.StatusCode))

/-- The duplicated top-level `transformTheHTTPResponse` (same body as the
method, but building the package-local `ResponseScheme`). -/
def transformTheHTTPResponse (response : Option HTTPResponse)
    (structureSupplied : Bool) : Option ResponseScheme × Option AgileError :=
  match response with
  | none => (none, some .nilResponse)
  | some response =>
    let responseTransformed : ResponseScheme :=
      { Code := response.StatusCode
        Endpoint := response.Request.URL
        Method := response.Request.Method
        Bytes := []
        Headers := [] }
    if 200 ≤ response.StatusCode ∧ response.StatusCode < 300 then
      match response.Body with
      | .error msg => (some responseTransformed, some (.bodyRead msg))
      | .ok responseAsBytes =>
        if structureSupplied ∧ (jparseFull responseAsBytes).isNone then
          (some responseTransformed, some .decodeFailed)
        else
          (some { responseTransformed with Bytes := responseAsBytes }, none)
    else
      (some responseTransformed, some (.requestFailed response.StatusCode))

/-- `(*Client).transformStructToReader`: nil checks, then `json.Marshal`
and a reader over the bytes (the reader is its byte contents here). -/
def Client.transformStructToReader (c : Client) (structureArg : StructInput) :
    Except AgileError (List Char) :=
  match structureArg with
  | .nilInterface => .error .structureNotParsed
  | .nilPointer => .error .structureNotParsed
  | .unserializable msg => .error (.marshalFailed msg)
  | .value v => .ok (renderJ v)

/-- The duplicated top-level `transformStructToReader` (same body as the
method). -/
def transformStructToReader (structureArg : StructInput) :
    Except AgileError (List Char) :=
  match structureArg with
  | .nilInterface => .error .structureNotParsed
  | .nilPointer => .error .structureNotParsed
  | .unserializable msg => .error (.marshalFailed msg)
  | .value v => .ok (renderJ v)

/-! ## URL parsing and reference resolution (model of `net/url`) -/

/-- Split a URL string at the first `:`, yielding the scheme and the
rest. -/
def spanScheme : List Char → Option (List Char × List Char)
  | [] => none
  | ':' :: rest => some ([], rest)
  | c :: rest => (spanScheme rest).map fun p => (c :: p.1, p.2)

/-- Models `url.Parse` restricted to absolute `scheme://host/path` URLs
(no query, fragment or userinfo), the forms the client is constructed
with; Go's parser is more permissive. -/
def parseURL (s : List Char) : Option URLModel :=
  (spanScheme s).bind fun p =>
    match p.2 with
    | '/' :: '/' :: rest2 =>
      some { scheme := p.1
             host := rest2.takeWhile (fun c => c ≠ '/')
             path := rest2.dropWhile (fun c => c ≠ '/') }
    | _ => none

/-- `base[:strings.LastIndex(base, "/")+1]`: the base path up to and
including its last slash (empty when there is none). -/
def upToLastSlash (l : List Char) : List Char :=
  (l.reverse.dropWhile (fun c => c ≠ '/')).reverse

/-- RFC 3986 §5.2.4 remove_dot_segments over a segment stack (`out` is
the output in reverse). `net/url`'s `resolvePath` implements the same
algorithm. -/
def rds (out : List (List Char)) : List (List Char) → List (List Char)
  | [] => out.reverse
  | seg :: rest =>
    if seg = [ '.'] then
      match rest with
      | [] => ([] :: out).reverse
      | _ => rds out rest
    else if seg = [ '.', '.'] then
      let out2 : List (List Char) :=
        match out with
        | [] => []
        | [x] => [x]
        | _ :: t => t
      match rest with
      | [] => ([] :: out2).reverse
      | _ => rds out2 rest
    else rds (seg :: out) rest

/-- remove_dot_segments on a path string. -/
def removeDotSegments (p : List Char) : List Char :=
  if p = [] then [] else
    let segs := p.splitOn '/'
    let segs := if p.head? = some '/' then segs else [] :: segs
    List.intercalate [ '/'] (rds [] segs)

/-- `net/url`'s `resolvePath`: merge the reference path into the base
path (RFC 3986 §5.2.3) and remove dot segments. -/
def resolvePath (base ref : List Char) : List Char :=
  let full :=
    if ref = [] then base
    else if ref.head? = some '/' then ref
    else upToLastSlash base ++ ref
  removeDotSegments full

/-- Models `(*url.URL).ResolveReference` for the references the client
builds: a relative path reference (no scheme, no authority) resolved
against an absolute base URL, per RFC 3986 §5.2. -/
def URLModel.resolveReference (base : URLModel) (refPath : List Char) : URLModel :=
  { scheme := base.scheme, host := base.host, path := resolvePath base.path refPath }

/-- `(*url.URL).String()` on the modelled URL shape. -/
def URLModel.render (u : URLModel) : List Char :=
  u.scheme ++ ':' :: '/' :: '/' :: u.host ++ u.path

/-- The parts of `http.Request` that `newRequest` determines and the
transformer later reads back. -/
structure RequestModel where
  Method : List Char
  URL : List Char
deriving Repr, DecidableEq

/-- `(*Client).newRequest` for relative-path endpoints: parse the
endpoint as a relative reference, resolve it against the client's site
URL, and build the request (context and auth headers carry no endpoint
information and are omitted). -/
def Client.newRequest (c : Client) (method apiEndpoint : List Char) : RequestModel :=
  { Method := method, URL := (c.Site.resolveReference apiEndpoint).render }

/-! ## Client construction (`New`) -/

/-- `strings.HasSuffix`. -/
def goHasSuffix (s suffix : List Char) : Bool :=
  suffix.isSuffixOf s

/-- The site normalization `New` performs before parsing: append a
trailing slash when missing. -/
def normalizeSite (site : List Char) : List Char :=
  if goHasSuffix site [ '/'] then site else site ++ [ '/']

/-- Modelled from the spec: `newBoardService` is declared outside
`src/`; per the spec (§1, §6) the per-resource services are thin
wrappers with no logic of their own, so construction succeeds. -/
def newBoardService (version : List Char) : Option Unit :=
  some ()

/-- Modelled from the spec: `newEpicService` is declared outside `src/`;
per the spec (§1, §6) it is a thin wrapper whose construction
succeeds. -/
def newEpicService (version : List Char) : Option Unit :=
  some ()

/-- `New`: substitute `http.DefaultClient` for a nil client, normalize
the site's trailing slash, parse the site URL, construct the service
handles, and assemble the client. -/
def New (httpClient : Option HTTPClient) (site : List Char) : Option Client :=
  let httpClient := httpClient.getD .defaultClient
  (parseURL (normalizeSite site)).bind fun siteAsURL =>
    (newBoardService (str "1.0")).bind fun _ =>
      (newEpicService (str "1.0")).bind fun _ =>
        some { HTTP := httpClient, Site := siteAsURL }

/-! ## Theorems: the response transformer -/

/-- C6: a nil response reference fails with `NilResponseError` and no
envelope is returned. -/
theorem c6_nil_response (c : Client) (structureSupplied : Bool) :
    Client.transformTheHTTPResponse c none structureSupplied = (none, some .nilResponse) :=
  rfl

/-- C2: for every response with status outside `[200,300)`, the
transformer returns an envelope populated with code, endpoint and
method, whose raw bytes are empty (the body is not read), together with
`RequestFailedError` carrying exactly that status code. -/
theorem c2_request_failed (c : Client) (resp : HTTPResponse) (structureSupplied : Bool)
    (hcode : ¬(200 ≤ resp.StatusCode ∧ resp.StatusCode < 300)) :
    Client.transformTheHTTPResponse c (some resp) structureSupplied =
      (some { Code := resp.StatusCode, Endpoint := resp.Request.URL,
              Method := resp.Request.Method, Bytes := [], Headers := [] },
       some (.requestFailed resp.StatusCode)) := by
  simp only [Client.transformTheHTTPResponse]
  rw [if_neg hcode]

/-- Witness for C2, the spec's §8 scenario: status 404 with body
`{"errorMessages":["Board does not exist"]}` yields envelope code 404,
empty raw bytes, and `RequestFailedError{404}`. -/
theorem c2_request_failed_witness :
    Client.transformTheHTTPResponse ⟨.defaultClient, ⟨str "https", str "h", str "/"⟩⟩
      (some ⟨404, ⟨str "https://h/rest/agile/1.0/board/1", str "GET"⟩,
        .ok (str "\x7b\"errorMessages\":[\"Board does not exist\"]\x7d")⟩) true =
      (some { Code := 404, Endpoint := str "https://h/rest/agile/1.0/board/1",
              Method := str "GET", Bytes := [], Headers := [] },
       some (.requestFailed 404)) :=
  c2_request_failed _ _ true (by decide)

/-- C1 as stated is false: a response with status 200 (in `[200,300)`)
whose body is malformed JSON, decoded into a supplied destination,
produces a non-nil error (and not raw bytes in the envelope). -/
theorem c1_counterexample :
    ((200 : Int) ≤ 200 ∧ (200 : Int) < 300) ∧
      (Client.transformTheHTTPResponse ⟨.defaultClient, ⟨str "https", str "h", str "/"⟩⟩
        (some ⟨200, ⟨str "https://h/b", str "GET"⟩, .ok (str "x")⟩) true).2 ≠ none := by
  exact ⟨by decide, by decide⟩

/-- C1 amended: for every response with status in `[200,300)` whose body
is read successfully and, when a destination structure is supplied,
decodes successfully, the transformer returns a populated envelope with
a nil error and raw bytes equal to the exact response body. -/
theorem c1_success_envelope (c : Client) (resp : HTTPResponse) (structureSupplied : Bool)
    (body : List Char)
    (hcode : 200 ≤ resp.StatusCode ∧ resp.StatusCode < 300)
    (hbody : resp.Body = .ok body)
    (hdec : structureSupplied = true → (jparseFull body).isSome = true) :
    Client.transformTheHTTPResponse c (some resp) structureSupplied =
      (some { Code := resp.StatusCode, Endpoint := resp.Request.URL,
              Method := resp.Request.Method, Bytes := body, Headers := [] }, none) := by
  simp only [Client.transformTheHTTPResponse]
  rw [if_pos hcode, hbody]
  cases structureSupplied with
  | false => simp
  | true =>
    have hne := Option.ne_none_iff_isSome.mpr (hdec rfl)
    simp [Option.isNone_iff_eq_none, hne]

/-- Witness for C1 (amended): a 204 response with body `null` and a
supplied destination round-trips the body into the envelope with no
error. -/
theorem c1_success_envelope_witness :
    Client.transformTheHTTPResponse ⟨.defaultClient, ⟨str "https", str "h", str "/"⟩⟩
      (some ⟨204, ⟨str "https://h/b", str "GET"⟩, .ok (str "null")⟩) true =
      (some { Code := 204, Endpoint := str "https://h/b", Method := str "GET",
              Bytes := str "null", Headers := [] }, none) :=
  c1_success_envelope _ _ true (str "null") (by decide) rfl (fun _ => by decide)

/-- C3 as stated is false: on the success path with a supplied
destination and malformed body bytes, the decode error is returned with
an envelope whose raw bytes are empty, not the body bytes (the source
writes `Bytes` only after a successful decode). -/
theorem c3_counterexample :
    Client.transformTheHTTPResponse ⟨.defaultClient, ⟨str "https", str "h", str "/"⟩⟩
        (some ⟨200, ⟨str "https://h/b", str "GET"⟩, .ok (str "x")⟩) true =
      (some { Code := 200, Endpoint := str "https://h/b", Method := str "GET",
              Bytes := [], Headers := [] }, some .decodeFailed) ∧
      str "x" ≠ [] := by
  exact ⟨by decide, by decide⟩

/-- C3 amended: on the success path the raw body bytes are copied into
the envelope when no destination is supplied or decoding succeeds; when
a supplied destination fails to decode, the envelope returned alongside
the `DecodeError` has empty raw bytes. -/
theorem c3_decode_failure_bytes (c : Client) (resp : HTTPResponse)
    (structureSupplied : Bool) (body : List Char)
    (hcode : 200 ≤ resp.StatusCode ∧ resp.StatusCode < 300)
    (hbody : resp.Body = .ok body) :
    ((structureSupplied = true → (jparseFull body).isSome = true) →
        (Client.transformTheHTTPResponse c (some resp) structureSupplied).1.map
          ModelsResponseScheme.Bytes = some body) ∧
      (structureSupplied = true → (jparseFull body).isNone = true →
        Client.transformTheHTTPResponse c (some resp) structureSupplied =
          (some { Code := resp.StatusCode, Endpoint := resp.Request.URL,
                  Method := resp.Request.Method, Bytes := [], Headers := [] },
           some .decodeFailed)) := by
  simp only [Client.transformTheHTTPResponse]
  rw [if_pos hcode, hbody]
  constructor
  · intro hdec
    cases structureSupplied with
    | false => simp
    | true =>
      have hne := Option.ne_none_iff_isSome.mpr (hdec rfl)
      simp [Option.isNone_iff_eq_none, hne]
  · intro hs hfail
    subst hs
    simp [hfail]

/-- Witness for C3 (amended): concrete malformed body `x` with a
supplied destination yields the decode error with empty envelope
bytes. -/
theorem c3_decode_failure_bytes_witness :
    ((true = true → (jparseFull (str "x")).isSome = true) →
        (Client.transformTheHTTPResponse ⟨.defaultClient, ⟨str "https", str "h", str "/"⟩⟩
          (some ⟨200, ⟨str "https://h/b", str "GET"⟩, .ok (str "x")⟩) true).1.map
          ModelsResponseScheme.Bytes = some (str "x")) ∧
      (true = true → (jparseFull (str "x")).isNone = true →
        Client.transformTheHTTPResponse ⟨.defaultClient, ⟨str "https", str "h", str "/"⟩⟩
          (some ⟨200, ⟨str "https://h/b", str "GET"⟩, .ok (str "x")⟩) true =
          (some { Code := 200, Endpoint := str "https://h/b", Method := str "GET",
                  Bytes := [], Headers := [] },
           some .decodeFailed)) :=
  c3_decode_failure_bytes _ _ true (str "x") (by decide) rfl

/-- C4: for every non-nil response, the returned envelope exists and its
status code, endpoint and method fields are populated from the response,
regardless of outcome. -/
theorem c4_envelope_populated (c : Client) (resp : HTTPResponse) (structureSupplied : Bool) :
    ∃ env, (Client.transformTheHTTPResponse c (some resp) structureSupplied).1 = some env ∧
      env.Code = resp.StatusCode ∧ env.Endpoint = resp.Request.URL ∧
      env.Method = resp.Request.Method := by
  simp only [Client.transformTheHTTPResponse]
  by_cases hcode : 200 ≤ resp.StatusCode ∧ resp.StatusCode < 300
  · rw [if_pos hcode]
    cases hb : resp.Body with
    | error msg => exact ⟨_, rfl, rfl, rfl, rfl⟩
    | ok bytes =>
      dsimp only
      by_cases hs : structureSupplied = true ∧ (jparseFull bytes).isNone = true
      · rw [if_pos hs]
        exact ⟨_, rfl, rfl, rfl, rfl⟩
      · rw [if_neg hs]
        exact ⟨_, rfl, rfl, rfl, rfl⟩
  · rw [if_neg hcode]
    exact ⟨_, rfl, rfl, rfl, rfl⟩

/-! ## Theorems: the payload serializer -/

/-- C5: both forms of an absent payload reference (a nil interface and a
non-nil interface holding a nil pointer) fail with
`StructureNotProvidedError`, returning no reader. -/
theorem c5_absent_payload (c : Client) :
    Client.transformStructToReader c .nilInterface = .error .structureNotParsed ∧
      Client.transformStructToReader c .nilPointer = .error .structureNotParsed :=
  ⟨rfl, rfl⟩

/-! ## Theorems: duplicated transform functions -/

/-- C9: the method-bound and top-level copies of the two transform
functions are behaviorally equivalent: equal `Code`, `Endpoint`,
`Method` and `Bytes` envelope fields, the same error outcome, and the
same serializer result. -/
theorem c9_duplicates_equivalent (c : Client) (response : Option HTTPResponse)
    (structureSupplied : Bool) (structureArg : StructInput) :
    ((Client.transformTheHTTPResponse c response structureSupplied).1.map fun r =>
        (r.Code, r.Endpoint, r.Method, r.Bytes)) =
      ((transformTheHTTPResponse response structureSupplied).1.map fun r =>
        (r.Code, r.Endpoint, r.Method, r.Bytes)) ∧
    (Client.transformTheHTTPResponse c response structureSupplied).2 =
      (transformTheHTTPResponse response structureSupplied).2 ∧
    Client.transformStructToReader c structureArg = transformStructToReader structureArg := by
  refine ⟨?_, ?_, ?_⟩
  · cases response with
    | none => rfl
    | some resp =>
      simp only [Client.transformTheHTTPResponse, transformTheHTTPResponse]
      by_cases hcode : 200 ≤ resp.StatusCode ∧ resp.StatusCode < 300
      · rw [if_pos hcode, if_pos hcode]
        cases resp.Body with
        | error msg => rfl
        | ok bytes =>
          dsimp only
          by_cases hs : structureSupplied = true ∧ (jparseFull bytes).isNone = true
          · rw [if_pos hs, if_pos hs]
            rfl
          · rw [if_neg hs, if_neg hs]
            rfl
      · rw [if_neg hcode, if_neg hcode]
        rfl
  · cases response with
    | none => rfl
    | some resp =>
      simp only [Client.transformTheHTTPResponse, transformTheHTTPResponse]
      by_cases hcode : 200 ≤ resp.StatusCode ∧ resp.StatusCode < 300
      · rw [if_pos hcode, if_pos hcode]
        cases resp.Body with
        | error msg => rfl
        | ok bytes =>
          dsimp only
          by_cases hs : structureSupplied = true ∧ (jparseFull bytes).isNone = true
          · rw [if_pos hs, if_pos hs]
          · rw [if_neg hs, if_neg hs]
      · rw [if_neg hcode, if_neg hcode]
  · cases structureArg <;> rfl

/-! ## Theorems: endpoint resolution -/

/-- C7: with method `GET`, path `board/1` and base site
`https://example.atlassian.net/rest/agile/1.0/`, the request resolves to
`https://example.atlassian.net/rest/agile/1.0/board/1`; and resolution
follows relative-reference rules, not string concatenation: against the
base without a trailing slash it replaces the last segment, where
concatenation would splice the path. -/
theorem c7_endpoint_resolution :
    ((parseURL (str "https://example.atlassian.net/rest/agile/1.0/")).map fun u =>
        Client.newRequest ⟨.defaultClient, u⟩ (str "GET") (str "board/1")) =
      some ⟨str "GET", str "https://example.atlassian.net/rest/agile/1.0/board/1"⟩ ∧
    ((parseURL (str "https://example.atlassian.net/rest/agile/1.0")).map fun u =>
        (Client.newRequest ⟨.defaultClient, u⟩ (str "GET") (str "board/1")).URL) =
      some (str "https://example.atlassian.net/rest/agile/board/1") ∧
    ((parseURL (str "https://example.atlassian.net/rest/agile/1.0")).map fun u =>
        (Client.newRequest ⟨.defaultClient, u⟩ (str "GET") (str "board/1")).URL) ≠
      some (str "https://example.atlassian.net/rest/agile/1.0" ++ str "board/1") := by
  refine ⟨by decide, by decide, by decide⟩

/-! ## Theorems: client construction -/

/-- C10: construction with a nil HTTP client succeeds exactly when
construction with a supplied client does, storing the same site URL and
substituting the default transport; the site string handed to the URL
parser always ends in a slash; and a site given without the trailing
slash yields the identical client, so resolution is unaffected. -/
theorem c10_new_normalizes_site (site : List Char) (c0 : HTTPClient) :
    ((New none site).map Client.Site = (New (some c0) site).map Client.Site) ∧
    ((New none site).isSome = (New (some c0) site).isSome) ∧
    (∀ cl, New none site = some cl → cl.HTTP = .defaultClient) ∧
    goHasSuffix (normalizeSite site) [ '/'] = true ∧
    (goHasSuffix site [ '/'] = false → New (some c0) (site ++ [ '/']) = New (some c0) site) := by
  refine ⟨?_, ?_, ?_, ?_, ?_⟩
  · simp only [New, newBoardService, newEpicService, Option.bind_some]
    cases parseURL (normalizeSite site) <;> rfl
  · simp only [New, newBoardService, newEpicService, Option.bind_some]
    cases parseURL (normalizeSite site) <;> rfl
  · intro cl hcl
    simp only [New, newBoardService, newEpicService, Option.bind_some] at hcl
    cases hp : parseURL (normalizeSite site) with
    | none => rw [hp] at hcl; cases hcl
    | some u =>
      rw [hp] at hcl
      cases hcl
      rfl
  · unfold normalizeSite
    by_cases h : goHasSuffix site [ '/'] = true
    · rw [if_pos h]; exact h
    · rw [if_neg h]
      simp [goHasSuffix, List.isSuffixOf]
  · intro h
    have h1 : normalizeSite (site ++ [ '/']) = site ++ [ '/'] := by
      unfold normalizeSite
      rw [if_pos]
      simp [goHasSuffix, List.isSuffixOf]
    have h2 : normalizeSite site = site ++ [ '/'] := by
      unfold normalizeSite
      rw [if_neg]
      simp [h]
    unfold New
    rw [h1, h2]

/-- Witness for C10 at a concrete site string without a trailing slash:
appending the slash yields the identical client. -/
theorem c10_new_normalizes_site_witness :
    New (some (.custom 7)) (str "https://example.atlassian.net" ++ [ '/']) =
      New (some (.custom 7)) (str "https://example.atlassian.net") :=
  (c10_new_normalizes_site (str "https://example.atlassian.net") (.custom 7)).2.2.2.2
    (by decide)

/-! ## JSON round-trip: digit and number lemmas -/

/-- A digit character's code point lies in `[48,57]`. -/
theorem isDigit_toNat (c : Char) (h : c.isDigit = true) : 48 ≤ c.toNat ∧ c.toNat ≤ 57 := by
  simp [Char.isDigit] at h
  exact h

/-- Every digit character is `digitChar` of a value below ten. -/
theorem isDigit_exists_digitChar (c : Char) (h : c.isDigit = true) :
    ∃ d, d < 10 ∧ c = digitChar d := by
  obtain ⟨h1, h2⟩ := isDigit_toNat c h
  refine ⟨c.toNat - 48, by omega, ?_⟩
  have ht : 48 + (c.toNat - 48) = c.toNat := by omega
  rw [digitChar, ht, Char.ofNat_toNat]

/-- `digitChar` of a value below ten is a digit character. -/
theorem digitChar_isDigit (d : Nat) (hd : d < 10) : (digitChar d).isDigit = true := by
  interval_cases d <;> decide

/-- `digitVal` inverts `digitChar` below ten. -/
theorem digitVal_digitChar (d : Nat) (hd : d < 10) : digitVal (digitChar d) = d := by
  interval_cases d <;> decide

/-- A rendered natural number is never the empty string. -/
theorem renderNat_ne_nil (n : Nat) : renderNat n ≠ [] := by
  unfold renderNat
  by_cases h : n = 0
  · simp [h]
  · rw [if_neg h]
    simp [Nat.digits_ne_nil_iff_ne_zero, h]

/-- Every character of a rendered natural number is a digit. -/
theorem renderNat_all_digits (n : Nat) : ∀ c ∈ renderNat n, c.isDigit = true := by
  intro c hc
  unfold renderNat at hc
  by_cases h : n = 0
  · rw [if_pos h] at hc
    simp at hc
    subst hc
    decide
  · rw [if_neg h] at hc
    rw [List.mem_reverse, List.mem_map] at hc
    obtain ⟨d, hd, rfl⟩ := hc
    exact digitChar_isDigit d (Nat.digits_lt_base (by norm_num) hd)

/-- `takeDigits` splits a digit run from a non-digit-headed remainder. -/
theorem takeDigits_append (ds rest : List Char)
    (hds : ∀ c ∈ ds, c.isDigit = true)
    (hrest : ∀ c, rest.head? = some c → c.isDigit = false) :
    takeDigits (ds ++ rest) = (ds, rest) := by
  induction ds with
  | nil =>
    cases rest with
    | nil => rfl
    | cons c r =>
      have := hrest c rfl
      simp [takeDigits, this]
  | cons c ds ih =>
    have hc := hds c (List.mem_cons_self c ds)
    have hrec := ih fun x hx => hds x (List.mem_cons_of_mem c hx)
    simp [takeDigits, hc, hrec]

/-- Big-endian digit folding agrees with `Nat.ofDigits` on the
little-endian digit list. -/
theorem foldr_digits_ofDigits (L : List Nat) (hL : ∀ d ∈ L, d < 10) :
    L.foldr (fun d acc => acc * 10 + digitVal (digitChar d)) 0 = Nat.ofDigits 10 L := by
  induction L with
  | nil => simp [Nat.ofDigits]
  | cons d L ih =>
    have hd := hL d (List.mem_cons_self d L)
    rw [List.foldr_cons, ih fun x hx => hL x (List.mem_cons_of_mem d hx),
      Nat.ofDigits_cons, digitVal_digitChar d hd]
    ring

/-- Parsing back the decimal rendering of a natural number recovers
it. -/
theorem digitsVal_renderNat (n : Nat) : digitsVal (renderNat n) = n := by
  unfold renderNat
  by_cases h : n = 0
  · simp [h]
    decide
  · rw [if_neg h]
    unfold digitsVal
    rw [List.foldl_reverse]
    rw [List.foldr_map]
    rw [foldr_digits_ofDigits _ fun d hd => Nat.digits_lt_base (by norm_num) hd]
    exact Nat.ofDigits_digits 10 n

/-- On a digit-headed input the parser scans the digit run as a number. -/
theorem parseVal_digit_head (c : Char) (hc : c.isDigit = true) (t : List Char) (fuel : Nat) :
    parseVal (fuel + 1) (c :: t) =
      some (.jnum ((digitsVal (takeDigits (c :: t)).1 : Nat) : Int), (takeDigits (c :: t)).2) := by
  obtain ⟨d, hd, rfl⟩ := isDigit_exists_digitChar c hc
  interval_cases d <;> simp [parseVal, digitChar, takeDigits]

/-- The parser recovers a rendered integer when the remainder does not
begin with a digit. -/
theorem parseVal_renderInt (n : Int) (fuel : Nat) (rest : List Char)
    (hrest : ∀ c, rest.head? = some c → c.isDigit = false) :
    parseVal (fuel + 1) (renderInt n ++ rest) = some (.jnum n, rest) := by
  have htd : takeDigits (renderNat n.natAbs ++ rest) = (renderNat n.natAbs, rest) :=
    takeDigits_append _ rest (renderNat_all_digits n.natAbs) hrest
  by_cases hn : n < 0
  · rw [renderInt, if_pos hn, List.cons_append]
    have hne : (takeDigits (renderNat n.natAbs ++ rest)).1 ≠ [] := by
      rw [htd]
      exact renderNat_ne_nil n.natAbs
    simp only [parseVal]
    rw [if_neg (by simpa using hne)]
    rw [htd]
    simp only [digitsVal_renderNat]
    have habs := Int.ofNat_natAbs_of_nonpos (le_of_lt hn)
    rw [habs, neg_neg]
  · rw [renderInt, if_neg hn]
    obtain ⟨c, t, hct⟩ := List.exists_cons_of_ne_nil (renderNat_ne_nil n.natAbs)
    have hcd : c.isDigit = true := by
      apply renderNat_all_digits n.natAbs
      rw [hct]
      exact List.mem_cons_self c t
    rw [hct, List.cons_append, parseVal_digit_head c hcd (t ++ rest) fuel,
      ← List.cons_append, ← hct, htd, digitsVal_renderNat]
    rw [Int.natAbs_of_nonneg (not_lt.mp hn)]

/-- The string scanner returns a quote-free string body and the
remainder after the closing quote. -/
theorem parseString_closed (s rest : List Char) (hq : ∀ c ∈ s, c ≠ '\"') :
    parseString (s ++ '\"' :: rest) = some (s, rest) := by
  induction s with
  | nil => simp [parseString]
  | cons c s ih =>
    have hc := hq c (List.mem_cons_self c s)
    rw [List.cons_append, parseString, if_neg hc,
      ih fun x hx => hq x (List.mem_cons_of_mem c hx)]
    rfl

/-! ## JSON round-trip: renderer shape lemmas -/

/-- A rendered JSON value is never the empty string. -/
theorem renderJ_ne_nil (v : JVal) : renderJ v ≠ [] := by
  cases v with
  | jnull => simp [renderJ]
  | jbool b => cases b <;> simp [renderJ]
  | jnum n =>
    rw [renderJ, renderInt]
    by_cases hn : n < 0
    · simp [hn]
    · simp [hn, renderNat_ne_nil]
  | jstr s => simp [renderJ]
  | jarr l => cases l <;> simp [renderJ]
  | jobj l =>
    cases l with
    | nil => simp [renderJ]
    | cons f l => obtain ⟨k, v⟩ := f; simp [renderJ]

/-- A non-empty array's body starts with its first element's
rendering. -/
theorem renderElems_exists_append (v : JVal) (l : List JVal) :
    ∃ t, renderElems v l = renderJ v ++ t := by
  cases l with
  | nil => exact ⟨[], by simp [renderElems]⟩
  | cons w l => exact ⟨',' :: renderElems w l, by simp [renderElems]⟩

/-- A non-empty object's body starts with an opening quote. -/
theorem renderFields_exists_cons (k : List Char) (v : JVal) (l : List ((List Char) × JVal)) :
    ∃ t, renderFields k v l = '\"' :: t := by
  cases l with
  | nil => exact ⟨k ++ '\"' :: ':' :: renderJ v, by simp [renderFields]⟩
  | cons f l =>
    obtain ⟨k2, v2⟩ := f
    exact ⟨(k ++ '\"' :: ':' :: renderJ v) ++ ',' :: renderFields k2 v2 l,
      by simp [renderFields]⟩

/-- The first character of a rendered JSON value is never a closing
bracket or closing brace. -/
theorem renderJ_head_ne (v : JVal) :
    ∃ c t, renderJ v = c :: t ∧ c ≠ ']' ∧ c ≠ '\x7d' := by
  cases v with
  | jnull => exact ⟨'n', [ 'u', 'l', 'l'], by simp [renderJ], by decide, by decide⟩
  | jbool b =>
    cases b with
    | true => exact ⟨'t', [ 'r', 'u', 'e'], by simp [renderJ], by decide, by decide⟩
    | false => exact ⟨'f', [ 'a', 'l', 's', 'e'], by simp [renderJ], by decide, by decide⟩
  | jnum n =>
    rw [renderJ, renderInt]
    by_cases hn : n < 0
    · exact ⟨'-', _, by rw [if_pos hn], by decide, by decide⟩
    · rw [if_neg hn]
      obtain ⟨c, t, hct⟩ := List.exists_cons_of_ne_nil (renderNat_ne_nil n.natAbs)
      have hcd : c.isDigit = true := by
        apply renderNat_all_digits n.natAbs
        rw [hct]
        exact List.mem_cons_self c t
      obtain ⟨h1, h2⟩ := isDigit_toNat c hcd
      refine ⟨c, t, hct, ?_, ?_⟩
      · intro hc
        subst hc
        simp at h2
      · intro hc
        subst hc
        simp at h2
  | jstr s => exact ⟨'\"', s ++ [ '\"'], by simp [renderJ], by decide, by decide⟩
  | jarr l =>
    cases l with
    | nil => exact ⟨'[', [ ']'], by simp [renderJ], by decide, by decide⟩
    | cons w l =>
      exact ⟨'[', renderElems w l ++ [ ']'], by simp [renderJ], by decide, by decide⟩
  | jobj l =>
    cases l with
    | nil => exact ⟨'\x7b', [ '\x7d'], by simp [renderJ], by decide, by decide⟩
    | cons f l =>
      obtain ⟨k, v⟩ := f
      exact ⟨'\x7b', renderFields k v l ++ [ '\x7d'], by simp [renderJ], by decide, by decide⟩

/-- Well-formed strings contain no quote character. -/
theorem wf_no_quote (s : List Char) (hs : s.all wfChar = true) : ∀ c ∈ s, c ≠ '\"' := by
  intro c hc
  have := (List.all_eq_true.mp hs) c hc
  simp [wfChar] at this
  tauto

/-! ## JSON round-trip: the parser inverts the renderer -/

/-- Every list has positive `sizeOf`. -/
theorem list_sizeOf_pos {α : Type} [SizeOf α] (l : List α) : 0 < sizeOf l := by
  cases l <;> simp_arith

/-- Every JSON value has positive `sizeOf`. -/
theorem jval_sizeOf_pos (v : JVal) : 0 < sizeOf v := by
  cases v <;> simp_arith

/-- Strong-induction core of the round-trip law: rendered values,
non-empty element lists and non-empty member lists all parse back,
simultaneously, below a structural size bound. -/
theorem parse_render_aux (n : Nat) :
    (∀ v fuel rest, sizeOf (v : JVal) ≤ n → wfJ v = true → (renderJ v).length ≤ fuel →
       (∀ c, rest.head? = some c → c.isDigit = false) →
       parseVal fuel (renderJ v ++ rest) = some (v, rest)) ∧
    (∀ v l fuel rest, sizeOf (v : JVal) + sizeOf (l : List JVal) ≤ n →
       wfArr (v :: l) = true → (renderElems v l).length < fuel →
       parseElems fuel (renderElems v l ++ ']' :: rest) = some (v :: l, rest)) ∧
    (∀ k v l fuel rest,
       sizeOf (v : JVal) + sizeOf (l : List ((List Char) × JVal)) ≤ n →
       wfObj ((k, v) :: l) = true → (renderFields k v l).length < fuel →
       parseFields fuel (renderFields k v l ++ '\x7d' :: rest) = some ((k, v) :: l, rest)) := by
  induction n using Nat.strong_induction_on with
  | _ n ih =>
    refine ⟨?_, ?_, ?_⟩
    · intro v fuel rest hn hw hfuel hrest
      have hpos : 0 < (renderJ v).length := List.length_pos.mpr (renderJ_ne_nil v)
      obtain ⟨g, rfl⟩ : ∃ g, fuel = g + 1 := ⟨fuel - 1, by omega⟩
      cases v with
      | jnull =>
        rw [show renderJ .jnull = [ 'n', 'u', 'l', 'l'] from by simp [renderJ]]
        simp [parseVal]
      | jbool b =>
        cases b with
        | true =>
          rw [show renderJ (.jbool true) = [ 't', 'r', 'u', 'e'] from by simp [renderJ]]
          simp [parseVal]
        | false =>
          rw [show renderJ (.jbool false) = [ 'f', 'a', 'l', 's', 'e'] from by simp [renderJ]]
          simp [parseVal]
      | jnum m =>
        rw [show renderJ (.jnum m) = renderInt m from by simp [renderJ]]
        exact parseVal_renderInt m g rest hrest
      | jstr s =>
        have hq := wf_no_quote s (by simpa [wfJ] using hw)
        rw [show renderJ (.jstr s) = '\"' :: (s ++ [ '\"']) from by simp [renderJ]]
        rw [List.cons_append, List.append_assoc, List.singleton_append]
        simp only [parseVal]
        rw [parseString_closed s rest hq]
        rfl
      | jarr l =>
        cases l with
        | nil =>
          rw [show renderJ (.jarr []) = [ '[', ']'] from by simp [renderJ]]
          simp [parseVal]
        | cons w l =>
          have hw2 : wfArr (w :: l) = true := by simpa [wfJ] using hw
          have hR : renderJ (.jarr (w :: l)) = '[' :: (renderElems w l ++ [ ']']) := by
            simp [renderJ]
          have hlen : (renderElems w l).length < g := by
            rw [hR] at hfuel
            simp [List.length_cons, List.length_append] at hfuel
            omega
          have hm : sizeOf (w : JVal) + sizeOf (l : List JVal) < n := by
            simp at hn
            omega
          rw [hR, List.cons_append, List.append_assoc, List.singleton_append]
          simp only [parseVal]
          obtain ⟨c, t, hct, hc1, hc2⟩ := renderJ_head_ne w
          obtain ⟨t2, ht2⟩ := renderElems_exists_append w l
          rw [if_neg (by rw [ht2, hct]; simp [hc1])]
          rw [(ih _ hm).2.1 w l g rest le_rfl hw2 hlen]
          rfl
      | jobj l =>
        cases l with
        | nil =>
          rw [show renderJ (.jobj []) = [ '\x7b', '\x7d'] from by simp [renderJ]]
          simp [parseVal]
        | cons f l =>
          obtain ⟨k, w⟩ := f
          have hw2 : wfObj ((k, w) :: l) = true := by simpa [wfJ] using hw
          have hR : renderJ (.jobj ((k, w) :: l)) =
              '\x7b' :: (renderFields k w l ++ [ '\x7d']) := by
            simp [renderJ]
          have hlen : (renderFields k w l).length < g := by
            rw [hR] at hfuel
            simp [List.length_cons, List.length_append] at hfuel
            omega
          have hm : sizeOf (w : JVal) + sizeOf (l : List ((List Char) × JVal)) < n := by
            simp at hn
            omega
          rw [hR, List.cons_append, List.append_assoc, List.singleton_append]
          simp only [parseVal]
          obtain ⟨t2, ht2⟩ := renderFields_exists_cons k w l
          rw [if_neg (by rw [ht2]; simp)]
          rw [(ih _ hm).2.2 k w l g rest le_rfl hw2 hlen]
          rfl
    · intro v l fuel rest hn hw hfuel
      obtain ⟨g, rfl⟩ : ∃ g, fuel = g + 1 := ⟨fuel - 1, by omega⟩
      have hw1 : wfJ v = true := by
        simp [wfArr, Bool.and_eq_true] at hw
        exact hw.1
      have hw2 : wfArr l = true := by
        simp [wfArr, Bool.and_eq_true] at hw
        exact hw.2
      have hlpos := list_sizeOf_pos l
      have hvpos := jval_sizeOf_pos v
      have hmv : sizeOf (v : JVal) < n := by omega
      cases l with
      | nil =>
        have he : renderElems v [] = renderJ v := by simp [renderElems]
        rw [he] at hfuel
        rw [he]
        simp only [parseElems]
        rw [(ih _ hmv).1 v g (']' :: rest) le_rfl hw1 (by omega)
          (by intro c h; simp at h; subst h; decide)]
        rfl
      | cons w l2 =>
        have he : renderElems v (w :: l2) = renderJ v ++ ',' :: renderElems w l2 := by
          simp [renderElems]
        rw [he] at hfuel
        rw [he]
        have hlenv : (renderJ v).length ≤ g := by
          simp [List.length_append, List.length_cons] at hfuel
          omega
        have hlen2 : (renderElems w l2).length < g := by
          simp [List.length_append, List.length_cons] at hfuel
          omega
        have hm2 : sizeOf (w : JVal) + sizeOf (l2 : List JVal) < n := by
          simp at hn
          omega
        rw [List.append_assoc, List.cons_append]
        simp only [parseElems]
        rw [(ih _ hmv).1 v g (',' :: (renderElems w l2 ++ ']' :: rest)) le_rfl hw1 hlenv
          (by intro c h; simp at h; subst h; decide)]
        simp only [Option.some_bind]
        rw [(ih _ hm2).2.1 w l2 g rest le_rfl hw2 hlen2]
        rfl
    · intro k v l fuel rest hn hw hfuel
      obtain ⟨g, rfl⟩ : ∃ g, fuel = g + 1 := ⟨fuel - 1, by omega⟩
      have hw' := hw
      simp only [wfObj, Bool.and_eq_true, List.all_eq_true] at hw'
      have hwk : ∀ c ∈ k, c ≠ '\"' := by
        apply wf_no_quote
        rw [List.all_eq_true]
        exact fun c hc => hw'.1.1 c hc
      have hw1 : wfJ v = true := hw'.1.2
      have hw2 : wfObj l = true := hw'.2
      have hlpos := list_sizeOf_pos l
      have hvpos := jval_sizeOf_pos v
      have hmv : sizeOf (v : JVal) < n := by omega
      cases l with
      | nil =>
        have he : renderFields k v [] = '\"' :: (k ++ '\"' :: ':' :: renderJ v) := by
          simp [renderFields]
        rw [he] at hfuel
        rw [he]
        have hlenv : (renderJ v).length ≤ g := by
          simp [List.length_append, List.length_cons] at hfuel
          omega
        simp only [List.cons_append, List.append_assoc]
        simp only [parseFields]
        rw [parseString_closed k (':' :: (renderJ v ++ '\x7d' :: rest)) hwk]
        simp only [Option.some_bind]
        rw [(ih _ hmv).1 v g ('\x7d' :: rest) le_rfl hw1 hlenv
          (by intro c h; simp at h; subst h; decide)]
        rfl
      | cons f l2 =>
        obtain ⟨k2, v2⟩ := f
        have he : renderFields k v ((k2, v2) :: l2) =
            ('\"' :: (k ++ '\"' :: ':' :: renderJ v)) ++ ',' :: renderFields k2 v2 l2 := by
          simp [renderFields]
        rw [he] at hfuel
        rw [he]
        have hlenv : (renderJ v).length ≤ g := by
          simp [List.length_append, List.length_cons] at hfuel
          omega
        have hlen2 : (renderFields k2 v2 l2).length < g := by
          simp [List.length_append, List.length_cons] at hfuel
          omega
        have hm2 : sizeOf (v2 : JVal) + sizeOf (l2 : List ((List Char) × JVal)) < n := by
          simp at hn
          omega
        simp only [List.cons_append, List.append_assoc]
        simp only [parseFields]
        rw [parseString_closed k
          (':' :: (renderJ v ++ ',' :: (renderFields k2 v2 l2 ++ '\x7d' :: rest))) hwk]
        simp only [Option.some_bind]
        rw [(ih _ hmv).1 v g (',' :: (renderFields k2 v2 l2 ++ '\x7d' :: rest)) le_rfl hw1 hlenv
          (by intro c h; simp at h; subst h; decide)]
        simp only [Option.some_bind]
        rw [(ih _ hm2).2.2 k2 v2 l2 g rest le_rfl hw2 hlen2]
        rfl

/-- A well-formed JSON value's rendering parses back to exactly the
value, leaving an arbitrary non-digit-headed remainder untouched. -/
theorem parseVal_renderJ (v : JVal) (fuel : Nat) (rest : List Char)
    (hw : wfJ v = true) (hfuel : (renderJ v).length ≤ fuel)
    (hrest : ∀ c, rest.head? = some c → c.isDigit = false) :
    parseVal fuel (renderJ v ++ rest) = some (v, rest) :=
  (parse_render_aux (sizeOf v)).1 v fuel rest le_rfl hw hfuel hrest

/-- C8: for every structure containing only JSON-representable fields
(a well-formed `JVal`), serializing through the payload serializer and
JSON-decoding the resulting bytes yields the original value (JSON
round-trip law). -/
theorem c8_json_roundtrip (c : Client) (v : JVal) (hw : wfJ v = true) :
    Client.transformStructToReader c (.value v) = .ok (renderJ v) ∧
      jparseFull (renderJ v) = some v := by
  refine ⟨rfl, ?_⟩
  unfold jparseFull
  have h := parseVal_renderJ v ((renderJ v).length + 1) [] hw (by omega)
    (by intro c h; simp at h)
  rw [List.append_nil] at h
  rw [h]

/-- Witness for C8 at the concrete payload `{"id":1,"name":"Board"}`. -/
theorem c8_json_roundtrip_witness :
    Client.transformStructToReader ⟨.defaultClient, ⟨str "https", str "h", str "/"⟩⟩
        (.value (.jobj [(str "id", .jnum 1), (str "name", .jstr (str "Board"))])) =
        .ok (renderJ (.jobj [(str "id", .jnum 1), (str "name", .jstr (str "Board"))])) ∧
      jparseFull (renderJ (.jobj [(str "id", .jnum 1), (str "name", .jstr (str "Board"))])) =
        some (.jobj [(str "id", .jnum 1), (str "name", .jstr (str "Board"))]) :=
  c8_json_roundtrip _ _ (by simp [wfJ, wfObj, wfChar, str])
